import Mathlib

/-!
Shallow embedding of the PassiveBuzzerMelodyPlayer core: the data types
(`Step`, `Melody`, `MelodyContext`), the `MelodyBuilder` fluent compiler,
the `Delay` elapsed-time primitive and the `BuzzerPlayer` playback FSM,
translated from the C++ sources.  Machine integers are modelled as `Nat`
(all builder arithmetic stays far below `2^32`; the one place where a
`uint32` multiplication can wrap, arming the step timer in microseconds,
is reduced modulo `2^32` explicitly).  The backend (`tone`/`noTone`) and
the step-buffer reads performed by the player are recorded as an explicit
event trace so that claims about commands being issued, or about
out-of-bounds reads, can be stated.
-/

/-- One compiled playback interval: a frequency in Hz (0 = silence) and a
duration in milliseconds.  Mirrors `struct Step` (core/Types.h). -/
structure Step where
  freqHz : Nat
  durationMs : Nat
  deriving DecidableEq, Repr

/-- A borrowed view of a compiled step sequence.  Mirrors `struct Melody`:
`steps` stands for the buffer pointer (the written prefix of the builder's
buffer) and `count` is carried separately, exactly as in the source, so the
player's index arithmetic is against `count`, not against the list. -/
structure Melody where
  steps : List Step
  count : Nat
  deriving DecidableEq, Repr

/-- Compilation context: tempo and articulation gap, with the source's
defaults (120 bpm, 0 ms gap).  Mirrors `struct MelodyContext`. -/
structure MelodyContext where
  bpm : Nat := 120
  gapMs : Nat := 0
  deriving DecidableEq, Repr

/-- `MelodyContext::MIN_PLAY_MS`: minimum audible tone duration in ms. -/
def MelodyContext.MIN_PLAY_MS : Nat := 10

/-- One note of a score in musical notation: frequency in Hz and a
denominator duration (1 = whole ... 32 = thirty-second). -/
structure ScoreNote where
  hz : Nat
  denom : Nat
  deriving DecidableEq, Repr

/-- State of `MelodyBuilder`: the written prefix of the caller-supplied
buffer (`buffer`, whose length is the source's `length_`), the buffer
capacity, the musical context and the sticky validity flag `ok_`.  The
buffer pointer itself is assumed non-null (the embedding owns the storage);
the `buffer_ != nullptr` half of the constructor's check is therefore
always true here and only `capacity_ > 0` remains. -/
structure MelodyBuilder where
  buffer : List Step
  capacity : Nat
  ctx : MelodyContext
  ok : Bool
  deriving DecidableEq, Repr

/-- The constructor `MelodyBuilder(Step* buffer, size_t capacity)`:
length 0, default context, `ok_ = (buffer_ != nullptr) && (capacity_ > 0)`
with the non-null buffer assumption folded in. -/
def mkBuilder (capacity : Nat) : MelodyBuilder :=
  { buffer := [], capacity := capacity, ctx := {}, ok := decide (0 < capacity) }

/-- `MelodyBuilder::pushStep_`: bounds-checked append.  Writes the step at
index `length_` and increments the length when `length_ < capacity_`;
otherwise discards the step and clears `ok_`.  Returns the success flag
alongside the new state. -/
def MelodyBuilder.pushStep (b : MelodyBuilder) (hz durationMs : Nat) :
    Bool × MelodyBuilder :=
  if b.buffer.length < b.capacity then
    (true, { b with buffer := b.buffer ++ [⟨hz, durationMs⟩] })
  else
    (false, { b with ok := false })

/-- `MelodyBuilder::denomToMs_`: converts a notation denominator and tempo
to milliseconds.  Zero `denom` or `bpm` clears `ok_` and yields 0; otherwise
`240000 / (bpm * denom)`, clamped up to 1 ms.  All values fit in `uint32`
for representable inputs (`bpm * denom ≤ 65535 * 255 < 2^32`). -/
def MelodyBuilder.denomToMs (b : MelodyBuilder) (denom bpm : Nat) :
    Nat × MelodyBuilder :=
  if denom = 0 ∨ bpm = 0 then
    (0, { b with ok := false })
  else
    let noteMs := 240000 / (bpm * denom)
    (if noteMs = 0 then 1 else noteMs, b)

/-- `MelodyBuilder::clearMelody`: length back to 0, context to defaults if
requested, `ok_` re-derived from the capacity check. -/
def MelodyBuilder.clearMelody (b : MelodyBuilder) (toDefault : Bool) :
    MelodyBuilder :=
  { b with buffer := [],
           ctx := if toDefault then {} else b.ctx,
           ok := decide (0 < b.capacity) }

/-- `MelodyBuilder::setTempo(int bpm)`: accepts 1..300; out of range clears
`ok_` and leaves the tempo unchanged. -/
def MelodyBuilder.setTempo (b : MelodyBuilder) (bpm : Int) : MelodyBuilder :=
  if bpm ≤ 0 ∨ 300 < bpm then { b with ok := false }
  else { b with ctx := { b.ctx with bpm := bpm.toNat } }

/-- `MelodyBuilder::gap(uint16_t gapMs)`: accepts 0..1000; larger values
clear `ok_` and leave the gap unchanged. -/
def MelodyBuilder.gap (b : MelodyBuilder) (gapMs : Nat) : MelodyBuilder :=
  if 1000 < gapMs then { b with ok := false }
  else { b with ctx := { b.ctx with gapMs := gapMs } }

/-- `MelodyBuilder::addNote`: converts the denominator via `denomToMs_`,
refuses a 0 duration, pushes a single silent step for `hz == 0`, and
otherwise runs the gap-split: if the configured gap is positive and the
duration exceeds `MIN_PLAY_MS`, the rest is the gap clamped to
`durationMs - MIN_PLAY_MS` and is subtracted from the played part; the tone
step is pushed, then the rest step if the rest is positive. -/
def MelodyBuilder.addNote (b : MelodyBuilder) (hz denom : Nat) : MelodyBuilder :=
  let conv := b.denomToMs denom b.ctx.bpm
  let durationMs := conv.1
  let b1 := conv.2
  if durationMs = 0 then { b1 with ok := false }
  else if hz = 0 then (b1.pushStep hz durationMs).2
  else
    let split :=
      if 0 < hz ∧ 0 < b1.ctx.gapMs ∧ MelodyContext.MIN_PLAY_MS < durationMs then
        let maxGap := durationMs - MelodyContext.MIN_PLAY_MS
        let restMs := if maxGap < b1.ctx.gapMs then maxGap else b1.ctx.gapMs
        (durationMs - restMs, restMs)
      else (durationMs, 0)
    let b2 := (b1.pushStep hz split.1).2
    if 0 < split.2 then (b2.pushStep 0 split.2).2 else b2

/-- `MelodyBuilder::addRest`: converts the denominator and pushes a single
silent step.  Note the source pushes the conversion result unconditionally,
without `addNote`'s `durationMs == 0` guard. -/
def MelodyBuilder.addRest (b : MelodyBuilder) (denom : Nat) : MelodyBuilder :=
  let conv := b.denomToMs denom b.ctx.bpm
  ((conv.2).pushStep 0 conv.1).2

/-- `MelodyBuilder::addToneMs`: pushes the raw step as-is. -/
def MelodyBuilder.addToneMs (b : MelodyBuilder) (hz durationMs : Nat) :
    MelodyBuilder :=
  (b.pushStep hz durationMs).2

/-- `MelodyBuilder::addRestMs`: pushes a raw silent step as-is. -/
def MelodyBuilder.addRestMs (b : MelodyBuilder) (durationMs : Nat) :
    MelodyBuilder :=
  (b.pushStep 0 durationMs).2

/-- `MelodyBuilder::appendScore(const ScoreNote*, size_t)`: iterates the
array and calls `addNote` for each element whose iteration still sees
`ok_` true (the flag is re-read before every element).  The null-pointer
check of the source cannot fire here since a Lean list is always a valid
array. -/
def MelodyBuilder.appendScore (b : MelodyBuilder) (score : List ScoreNote) :
    MelodyBuilder :=
  score.foldl
    (fun acc note => if acc.ok then acc.addNote note.hz note.denom else acc) b

/-- The `Reader` overload `MelodyBuilder::appendScore(Reader&&, size_t)`
from MelodyBuilder.h: the source iterates
`for_each_indexed(buffer_, length_, ...)`, so the trip count is the
compiled length at entry (the `count` argument is never used), and each
iteration whose entry re-reads `ok_` as true reads `reader(index)` and
calls `addNote` on it. -/
def MelodyBuilder.appendScoreReader (b : MelodyBuilder)
    (reader : Nat → ScoreNote) (count : Nat) : MelodyBuilder :=
  (List.range b.buffer.length).foldl
    (fun acc i =>
      if acc.ok then acc.addNote (reader i).hz (reader i).denom else acc) b

/-- `MelodyBuilder::build`: a borrowed view over the written prefix and the
current length.  Does not reset the builder. -/
def MelodyBuilder.build (b : MelodyBuilder) : Melody :=
  { steps := b.buffer, count := b.buffer.length }

/-- `MelodyBuilder::size`: the current compiled length. -/
def MelodyBuilder.size (b : MelodyBuilder) : Nat :=
  b.buffer.length

/-- One first-order builder call, used to quantify over arbitrary call
sequences against the public mutating surface. -/
inductive BOp where
  | clearMelody (toDefault : Bool)
  | setTempo (bpm : Int)
  | gap (gapMs : Nat)
  | addNote (hz denom : Nat)
  | addRest (denom : Nat)
  | addToneMs (hz durationMs : Nat)
  | addRestMs (durationMs : Nat)
  | appendScore (score : List ScoreNote)
  | appendScoreReader (reader : Nat → ScoreNote) (count : Nat)

/-- Interpret one builder call. -/
def MelodyBuilder.applyOp (b : MelodyBuilder) : BOp → MelodyBuilder
  | .clearMelody toDefault => b.clearMelody toDefault
  | .setTempo bpm => b.setTempo bpm
  | .gap gapMs => b.gap gapMs
  | .addNote hz denom => b.addNote hz denom
  | .addRest denom => b.addRest denom
  | .addToneMs hz durationMs => b.addToneMs hz durationMs
  | .addRestMs durationMs => b.addRestMs durationMs
  | .appendScore score => b.appendScore score
  | .appendScoreReader reader count => b.appendScoreReader reader count

/-- Interpret a sequence of builder calls, first call first. -/
def MelodyBuilder.applyOps (b : MelodyBuilder) (ops : List BOp) : MelodyBuilder :=
  ops.foldl MelodyBuilder.applyOp b

namespace fsm

/-- Player FSM states, mirror of `fsm::State` (FSM/States.h). -/
inductive State where
  | IDLE
  | START_STEP
  | PLAYING_STEP
  | ADVANCE_STEP
  deriving DecidableEq, Repr

end fsm

/-- The non-blocking `Delay` interval primitive (Timer/Delay.cpp), on the
microsecond counter: target interval, reference timestamp and the disarm
flag.  Timestamps and intervals are `unsigned long` (32-bit on AVR), so the
elapsed-time subtraction is taken modulo `2^32`. -/
structure Delay where
  delayTime : Nat
  previousTime : Nat
  disarm : Bool
  deriving DecidableEq, Repr

/-- `Delay::init(unsigned long)`: rearm with a new interval from `now`. -/
def Delay.init (d : Delay) (delayTime now : Nat) : Delay :=
  { d with disarm := false, delayTime := delayTime, previousTime := now }

/-- `Delay::isDelayTimeElapsed` at counter value `now`: when armed and
`(now - previousTime) >= delayTime` in wraparound `uint32` arithmetic, it
reports true and restarts the reference timestamp; otherwise false. -/
def Delay.isDelayTimeElapsed (d : Delay) (now : Nat) : Bool × Delay :=
  if d.disarm then (false, d)
  else if d.delayTime ≤ (now + 2 ^ 32 - d.previousTime % 2 ^ 32) % 2 ^ 32 then
    (true, { d with previousTime := now })
  else (false, d)

/-- `Delay::stopDelay`: disarm, so the delay can no longer fire. -/
def Delay.stopDelay (d : Delay) : Delay :=
  { d with disarm := true }

/-- Observable effects of the player: commands sent to the signal-generator
backend (`tone` / `noTone`), and each read of a melody step by its index so
that out-of-bounds accesses of the borrowed buffer are visible. -/
inductive Event where
  | hwStart (hz : Nat)
  | hwStop
  | stepRead (idx : Nat)
  deriving DecidableEq, Repr

/-- State of `BuzzerPlayer`: the borrowed melody pointer (`none` models
`nullptr`), the current step index, the loop flag, the per-step delay and
the FSM state. -/
structure BuzzerPlayer where
  melody : Option Melody
  melodyStepIdx : Nat
  looping : Bool
  stepDelay : Delay
  state : fsm.State
  deriving DecidableEq, Repr

/-- The `BuzzerPlayer` constructor: no melody, index 0, not looping, delay
of interval 0 initialised (armed) at construction time `now`, state IDLE. -/
def mkPlayer (now : Nat) : BuzzerPlayer :=
  { melody := none, melodyStepIdx := 0, looping := false,
    stepDelay := (Delay.mk 0 0 false).init 0 now, state := fsm.State.IDLE }

/-- `BuzzerPlayer::isPlaying`: true iff the FSM is not IDLE. -/
def BuzzerPlayer.isPlaying (p : BuzzerPlayer) : Bool :=
  decide (p.state ≠ fsm.State.IDLE)

/-- `BuzzerPlayer::stop`: command the backend to stop, clear the melody
pointer, reset index and loop flag, go IDLE and disarm the timer. -/
def BuzzerPlayer.stop (p : BuzzerPlayer) : BuzzerPlayer × List Event :=
  ({ p with melody := none, looping := false, melodyStepIdx := 0,
            state := fsm.State.IDLE, stepDelay := p.stepDelay.stopDelay },
   [Event.hwStop])

/-- `BuzzerPlayer::play`: stop first if already playing, then store the
melody reference and loop flag, reset the index and arm the FSM in
START_STEP (playback begins on the next poll). -/
def BuzzerPlayer.play (p : BuzzerPlayer) (melody : Melody) (loop : Bool) :
    BuzzerPlayer × List Event :=
  let stopped := if p.isPlaying then p.stop else (p, [])
  ({ stopped.1 with melody := some melody, looping := loop,
                    melodyStepIdx := 0, state := fsm.State.START_STEP },
   stopped.2)

/-- `BuzzerPlayer::getCurrentStep`: `melody_->steps[melodyStepIdx_]`.  The
source performs the raw array read with no bounds or null check; an
out-of-bounds or through-null read (undefined behaviour in C++) is modelled
as the default step `⟨0, 0⟩` — the accompanying `Event.stepRead` in
`update` records the index actually accessed. -/
def BuzzerPlayer.getCurrentStep (p : BuzzerPlayer) : Step :=
  ((p.melody.getD ⟨[], 0⟩).steps).getD p.melodyStepIdx ⟨0, 0⟩

/-- `BuzzerPlayer::advanceToNextStep`: increment the index; with a melody
loaded and the index past the end, either wrap to 0 and restart when
looping or stop the player; otherwise return to START_STEP. -/
def BuzzerPlayer.advanceToNextStep (p : BuzzerPlayer) :
    BuzzerPlayer × List Event :=
  let p1 := { p with melodyStepIdx := p.melodyStepIdx + 1 }
  match p1.melody with
  | some m =>
      if m.count ≤ p1.melodyStepIdx then
        if p1.looping then
          ({ p1 with melodyStepIdx := 0, state := fsm.State.START_STEP }, [])
        else p1.stop
      else ({ p1 with state := fsm.State.START_STEP }, [])
  | none => ({ p1 with state := fsm.State.START_STEP }, [])

/-- `BuzzerPlayer::update` polled at counter value `now`: IDLE does
nothing; START_STEP reads the current step, starts the backend at its
frequency (or stops it for a rest), arms the timer for
`durationMs * 1000` microseconds (a `uint32` multiplication, hence the
modulus) and moves to PLAYING_STEP; PLAYING_STEP advances once the timer
elapses; ADVANCE_STEP runs `advanceToNextStep`. -/
def BuzzerPlayer.update (p : BuzzerPlayer) (now : Nat) :
    BuzzerPlayer × List Event :=
  match p.state with
  | fsm.State.IDLE => (p, [])
  | fsm.State.START_STEP =>
      let mStep := p.getCurrentStep
      let hwEvent :=
        if 0 < mStep.freqHz then Event.hwStart mStep.freqHz else Event.hwStop
      ({ p with stepDelay := p.stepDelay.init (mStep.durationMs * 1000 % 2 ^ 32) now,
                state := fsm.State.PLAYING_STEP },
       [Event.stepRead p.melodyStepIdx, hwEvent])
  | fsm.State.PLAYING_STEP =>
      let elapsed := p.stepDelay.isDelayTimeElapsed now
      ({ p with stepDelay := elapsed.2,
                state := if elapsed.1 then fsm.State.ADVANCE_STEP
                         else fsm.State.PLAYING_STEP }, [])
  | fsm.State.ADVANCE_STEP => p.advanceToNextStep

/-- One first-order call against the player's public API, used to quantify
over arbitrary interaction sequences. -/
inductive PAct where
  | play (melody : Melody) (loop : Bool)
  | stop
  | update (now : Nat)

/-- Interpret one player call, discarding the event trace. -/
def BuzzerPlayer.applyAct (p : BuzzerPlayer) : PAct → BuzzerPlayer
  | .play melody loop => (p.play melody loop).1
  | .stop => p.stop.1
  | .update now => (p.update now).1

/-- Interpret a sequence of player calls, first call first. -/
def BuzzerPlayer.applyActs (p : BuzzerPlayer) (acts : List PAct) : BuzzerPlayer :=
  acts.foldl BuzzerPlayer.applyAct p

/-- `denomToMs_` on positive inputs: no builder mutation, and the result is
the spec's `max 1 (240000 / (bpm * denom))`. -/
theorem MelodyBuilder.denomToMs_pos (b : MelodyBuilder) {denom bpm : Nat}
    (hd : 1 ≤ denom) (hb : 1 ≤ bpm) :
    b.denomToMs denom bpm = (max 1 (240000 / (bpm * denom)), b) := by
  have h1 : ¬(denom = 0 ∨ bpm = 0) := by omega
  unfold MelodyBuilder.denomToMs
  rw [if_neg h1]
  rcases Nat.eq_zero_or_pos (240000 / (bpm * denom)) with h0 | h0
  · simp [h0]
  · have h2 : 240000 / (bpm * denom) ≠ 0 := by omega
    simp only [h2, if_false]
    rw [max_eq_right (show (1 : Nat) ≤ 240000 / (bpm * denom) by omega)]

/-- `pushStep_` with room left appends exactly one step at index `length_`. -/
theorem MelodyBuilder.pushStep_of_lt (b : MelodyBuilder) (hz d : Nat)
    (h : b.buffer.length < b.capacity) :
    b.pushStep hz d = (true, { b with buffer := b.buffer ++ [⟨hz, d⟩] }) := by
  unfold MelodyBuilder.pushStep
  rw [if_pos h]

/-- `pushStep_` at capacity only clears `ok_`. -/
theorem MelodyBuilder.pushStep_of_full (b : MelodyBuilder) (hz d : Nat)
    (h : b.capacity ≤ b.buffer.length) :
    b.pushStep hz d = (false, { b with ok := false }) := by
  unfold MelodyBuilder.pushStep
  rw [if_neg (by omega)]

/-- `pushStep_` keeps the capacity, only appends to the buffer, and cannot
push the length past the capacity. -/
theorem MelodyBuilder.pushStep_extends (b : MelodyBuilder) (hz d : Nat) :
    (b.pushStep hz d).2.capacity = b.capacity ∧
    (∃ t, (b.pushStep hz d).2.buffer = b.buffer ++ t) ∧
    (b.buffer.length ≤ b.capacity →
      (b.pushStep hz d).2.buffer.length ≤ b.capacity) := by
  unfold MelodyBuilder.pushStep
  by_cases h : b.buffer.length < b.capacity
  · rw [if_pos h]
    refine ⟨rfl, ⟨[⟨hz, d⟩], rfl⟩, fun _ => ?_⟩
    simp; omega
  · rw [if_neg h]
    exact ⟨rfl, ⟨[], by simp⟩, fun hb => hb⟩

/-- `denomToMs_` never touches buffer, capacity or context. -/
theorem MelodyBuilder.denomToMs_snd (b : MelodyBuilder) (denom bpm : Nat) :
    (b.denomToMs denom bpm).2.buffer = b.buffer ∧
    (b.denomToMs denom bpm).2.capacity = b.capacity ∧
    (b.denomToMs denom bpm).2.ctx = b.ctx := by
  unfold MelodyBuilder.denomToMs
  by_cases h : denom = 0 ∨ bpm = 0 <;> simp [h]

/-- C3: for `notatedDuration ≥ 1` and `bpm ≥ 1` the conversion returns
`max 1 (floor (240000 / (bpm * notatedDuration)))` — in particular
`toMs 4 120 = 500`, `toMs 2 120 = 1000`, `toMs 1 120 = 2000` — and a zero
`notatedDuration` or `bpm` marks the builder invalid, and `addNote` then
pushes nothing rather than compiling a 0 duration. -/
theorem denomToMs_formula_and_zero_input_policy (b : MelodyBuilder)
    (denom bpm : Nat) :
    (1 ≤ denom → 1 ≤ bpm →
      (b.denomToMs denom bpm).1 = max 1 (240000 / (bpm * denom)) ∧
      (b.denomToMs denom bpm).2 = b) ∧
    ((b.denomToMs 4 120).1 = 500 ∧ (b.denomToMs 2 120).1 = 1000 ∧
      (b.denomToMs 1 120).1 = 2000) ∧
    (denom = 0 ∨ bpm = 0 →
      (b.denomToMs denom bpm).2.ok = false ∧ (b.denomToMs denom bpm).1 = 0) ∧
    (denom = 0 ∨ b.ctx.bpm = 0 → ∀ hz,
      (b.addNote hz denom).buffer = b.buffer ∧
      (b.addNote hz denom).ok = false) := by
  refine ⟨fun hd hb => by rw [b.denomToMs_pos hd hb]; exact ⟨rfl, rfl⟩, ?_, ?_, ?_⟩
  · rw [b.denomToMs_pos (by norm_num) (by norm_num),
        b.denomToMs_pos (by norm_num) (by norm_num),
        b.denomToMs_pos (by norm_num) (by norm_num)]
    norm_num
  · intro h
    unfold MelodyBuilder.denomToMs
    rw [if_pos h]
    exact ⟨rfl, rfl⟩
  · intro h hz
    unfold MelodyBuilder.addNote MelodyBuilder.denomToMs
    rw [if_pos h]
    simp

/-- Witness for `denomToMs_formula_and_zero_input_policy` at `denom = 4`,
`bpm = 120` on a fresh builder. -/
theorem denomToMs_formula_and_zero_input_policy_witness :
    ((mkBuilder 4).denomToMs 4 120).1 = max 1 (240000 / (120 * 4)) ∧
    ((mkBuilder 4).denomToMs 0 120).2.ok = false :=
  ⟨((denomToMs_formula_and_zero_input_policy (mkBuilder 4) 4 120).1
      (by norm_num) (by norm_num)).1,
   ((denomToMs_formula_and_zero_input_policy (mkBuilder 4) 0 120).2.2.1
      (Or.inl rfl)).1⟩

/-- C9: over `bpm ∈ [1, 300]` and denominators in `{1, 2, 4, 8, 16, 32}`,
the conversion is antitone in the denominator and in the tempo, and always
returns at least 1 ms. -/
theorem toMs_antitone_and_positive (b : MelodyBuilder)
    (bpm bpm' denom denom' : Nat)
    (hb1 : 1 ≤ bpm) (hb2 : bpm ≤ bpm') (hb3 : bpm' ≤ 300)
    (hd : denom = 1 ∨ denom = 2 ∨ denom = 4 ∨ denom = 8 ∨ denom = 16 ∨
      denom = 32)
    (hd' : denom' = 1 ∨ denom' = 2 ∨ denom' = 4 ∨ denom' = 8 ∨ denom' = 16 ∨
      denom' = 32) (hdd : denom ≤ denom') :
    (b.denomToMs denom' bpm).1 ≤ (b.denomToMs denom bpm).1 ∧
    (b.denomToMs denom bpm').1 ≤ (b.denomToMs denom bpm).1 ∧
    1 ≤ (b.denomToMs denom bpm).1 := by
  have hd1 : 1 ≤ denom := by omega
  have hd1' : 1 ≤ denom' := by omega
  have hb1' : 1 ≤ bpm' := by omega
  rw [b.denomToMs_pos hd1 hb1, b.denomToMs_pos hd1' hb1,
      b.denomToMs_pos hd1 hb1']
  refine ⟨max_le_max le_rfl ?_, max_le_max le_rfl ?_, le_max_left 1 _⟩
  · exact Nat.div_le_div_left
      (Nat.mul_le_mul_left bpm hdd) (by positivity)
  · exact Nat.div_le_div_left
      (Nat.mul_le_mul_right denom hb2) (by positivity)

/-- Witness for `toMs_antitone_and_positive`: 120 and 140 bpm, eighth
versus quarter notes. -/
theorem toMs_antitone_and_positive_witness :
    ((mkBuilder 4).denomToMs 8 120).1 ≤ ((mkBuilder 4).denomToMs 4 120).1 ∧
    ((mkBuilder 4).denomToMs 4 140).1 ≤ ((mkBuilder 4).denomToMs 4 120).1 ∧
    1 ≤ ((mkBuilder 4).denomToMs 4 120).1 :=
  toMs_antitone_and_positive (mkBuilder 4) 120 140 4 8
    (by norm_num) (by norm_num) (by norm_num)
    (by norm_num) (by norm_num) (by norm_num)

/-- C5 fails on the code: on a fresh builder (capacity 4, default 120 bpm)
the notation-based call `addRest 0` evaluates `denomToMs_ 0 120 = 0` and
pushes the step unconditionally, compiling `Step ⟨0, 0⟩` into the buffer —
`addRest` lacks the `durationMs == 0` guard that `addNote` has, so a
zero-duration step is compiled (with `ok_` cleared). -/
theorem addRest_zero_denominator_compiles_zero_step :
    ((mkBuilder 4).addRest 0).buffer = [⟨0, 0⟩] ∧
    ((mkBuilder 4).addRest 0).size = 1 ∧
    ((mkBuilder 4).addRest 0).ok = false := by decide

/-- C7 fails on the code: the `Reader` overload of `appendScore` iterates
`for_each_indexed(buffer_, length_, ...)`, so on a fresh builder
(`length_ == 0`) a call with `count = 3` invokes the reader zero times and
appends nothing — the `count` argument is ignored and the trip count is the
builder's current compiled length. -/
theorem appendScore_reader_iterates_length_not_count :
    (mkBuilder 8).appendScoreReader (fun _ => ⟨440, 4⟩) 3 = mkBuilder 8 ∧
    ((mkBuilder 8).appendScoreReader (fun _ => ⟨440, 4⟩) 3).size = 0 := by
  exact ⟨rfl, rfl⟩

/-- C1 fails on the code: a builder made invalid by `setTempo 301` still
pushes a step on `addToneMs` (the push is only bounds-checked, not gated on
`ok_`), so a mutating call in an `isValid() == false` state is not a no-op
on the buffer and length. -/
theorem invalid_builder_addToneMs_still_pushes :
    (((mkBuilder 2).setTempo 301).ok = false) ∧
    ((((mkBuilder 2).setTempo 301).addToneMs 440 100).size = 1) ∧
    ((((mkBuilder 2).setTempo 301).addToneMs 440 100).buffer =
      [⟨440, 100⟩]) := by decide

/-- Folding a step function over any list leaves a fixed point unchanged. -/
theorem foldl_fixed_point {α β : Type} (f : β → α → β) (b : β)
    (h : ∀ x, f b x = b) : ∀ l : List α, l.foldl f b = b := by
  intro l
  induction l with
  | nil => rfl
  | cons x xs ih => rw [List.foldl_cons, h x, ih]

/-- `appendScore` (array overload) appends nothing once `ok_` is false:
every iteration re-checks the flag before calling `addNote`. -/
theorem MelodyBuilder.appendScore_of_not_ok (b : MelodyBuilder)
    (hok : b.ok = false) (score : List ScoreNote) : b.appendScore score = b := by
  unfold MelodyBuilder.appendScore
  exact foldl_fixed_point _ b (fun x => by rw [hok]; simp) score

/-- The `Reader` overload of `appendScore` likewise appends nothing once
`ok_` is false. -/
theorem MelodyBuilder.appendScoreReader_of_not_ok (b : MelodyBuilder)
    (hok : b.ok = false) (reader : Nat → ScoreNote) (count : Nat) :
    b.appendScoreReader reader count = b := by
  unfold MelodyBuilder.appendScoreReader
  exact foldl_fixed_point _ b (fun x => by rw [hok]; simp) _

/-- `addNote` on a full buffer leaves the buffer unchanged: every push is
bounds-checked. -/
theorem MelodyBuilder.addNote_buffer_of_full (b : MelodyBuilder)
    (h : b.capacity ≤ b.buffer.length) (hz denom : Nat) :
    (b.addNote hz denom).buffer = b.buffer := by
  rcases hconv : b.denomToMs denom b.ctx.bpm with ⟨d, b1⟩
  have hbuf : b1.buffer = b.buffer := by
    have h2 := (b.denomToMs_snd denom b.ctx.bpm).1
    rw [hconv] at h2
    exact h2
  have hcap : b1.capacity = b.capacity := by
    have h2 := (b.denomToMs_snd denom b.ctx.bpm).2.1
    rw [hconv] at h2
    exact h2
  have hfull1 : b1.capacity ≤ b1.buffer.length := by rw [hbuf, hcap]; exact h
  have hpush1 : ∀ z x, (b1.pushStep z x).2 = { b1 with ok := false } :=
    fun z x => by rw [b1.pushStep_of_full _ _ hfull1]
  have hfull2 : ({ b1 with ok := false } : MelodyBuilder).capacity ≤
      ({ b1 with ok := false } : MelodyBuilder).buffer.length := hfull1
  have hpush2 : ∀ z y, (({ b1 with ok := false } : MelodyBuilder).pushStep z y).2 =
      { b1 with ok := false } :=
    fun z y => by rw [MelodyBuilder.pushStep_of_full _ _ _ hfull2]
  unfold MelodyBuilder.addNote
  simp only [hconv, hpush1, hpush2, ite_self]
  exact hbuf

/-- `addRest` on a full buffer leaves the buffer unchanged. -/
theorem MelodyBuilder.addRest_buffer_of_full (b : MelodyBuilder)
    (h : b.capacity ≤ b.buffer.length) (denom : Nat) :
    (b.addRest denom).buffer = b.buffer := by
  rcases hconv : b.denomToMs denom b.ctx.bpm with ⟨d, b1⟩
  have hbuf : b1.buffer = b.buffer := by
    have h2 := (b.denomToMs_snd denom b.ctx.bpm).1
    rw [hconv] at h2
    exact h2
  have hcap : b1.capacity = b.capacity := by
    have h2 := (b.denomToMs_snd denom b.ctx.bpm).2.1
    rw [hconv] at h2
    exact h2
  have hfull1 : b1.capacity ≤ b1.buffer.length := by rw [hbuf, hcap]; exact h
  unfold MelodyBuilder.addRest
  simp only [hconv]
  rw [b1.pushStep_of_full _ _ hfull1]
  exact hbuf

/-- C1 corrected: once `isValid()` is false, the `appendScore` overloads
append nothing; the other mutating calls (`addNote`, `addRest`,
`addToneMs`, `addRestMs`) are not gated on the sticky flag and are
guaranteed no-ops on the buffer and length only when the invalidity comes
with an exhausted buffer (`length() == capacity`); every call still returns
the builder value for chaining (implicit here: each operation is total and
yields the next builder). -/
theorem mutating_calls_on_invalid_builder (b : MelodyBuilder)
    (hok : b.ok = false) :
    (∀ score : List ScoreNote, b.appendScore score = b) ∧
    (∀ reader count, b.appendScoreReader reader count = b) ∧
    (b.capacity ≤ b.buffer.length →
      ∀ hz denom durationMs,
        (b.addNote hz denom).buffer = b.buffer ∧
        (b.addRest denom).buffer = b.buffer ∧
        (b.addToneMs hz durationMs).buffer = b.buffer ∧
        (b.addRestMs durationMs).buffer = b.buffer) := by
  refine ⟨b.appendScore_of_not_ok hok, b.appendScoreReader_of_not_ok hok,
    fun hfull hz denom durationMs =>
      ⟨b.addNote_buffer_of_full hfull hz denom,
       b.addRest_buffer_of_full hfull denom, ?_, ?_⟩⟩
  · unfold MelodyBuilder.addToneMs
    rw [b.pushStep_of_full _ _ hfull]
  · unfold MelodyBuilder.addRestMs
    rw [b.pushStep_of_full _ _ hfull]

/-- Witness for `mutating_calls_on_invalid_builder` on the invalid builder
of capacity 0. -/
theorem mutating_calls_on_invalid_builder_witness :
    (mkBuilder 0).appendScore [⟨440, 4⟩] = mkBuilder 0 ∧
    ((mkBuilder 0).addToneMs 440 100).buffer = (mkBuilder 0).buffer :=
  ⟨(mutating_calls_on_invalid_builder (mkBuilder 0) (by decide)).1 [⟨440, 4⟩],
   ((mutating_calls_on_invalid_builder (mkBuilder 0) (by decide)).2.2
      (by decide) 440 4 100).2.2.1⟩

/-- C2: for `addNote` with positive frequency, converted duration `D` and
configured gap `G`: when `G > 0` and `D > MIN_PLAY_MS` the rest is
`min G (D - MIN_PLAY_MS)` and the played part is `D - restMs` (otherwise
the whole `D` is played); always `playMs + restMs = D`, the played part
stays at least `MIN_PLAY_MS` whenever `D ≥ MIN_PLAY_MS`, and with room for
both steps the buffer gains the tone step of `playMs` followed, iff
`restMs > 0`, by the silence step of `restMs`. -/
theorem addNote_gap_split_invariant (b : MelodyBuilder)
    (hz denom D G restMs playMs : Nat)
    (hhz : 0 < hz) (hdenom : 1 ≤ denom) (hbpm : 1 ≤ b.ctx.bpm)
    (hcap : b.buffer.length + 2 ≤ b.capacity)
    (hD : D = (b.denomToMs denom b.ctx.bpm).1)
    (hG : G = b.ctx.gapMs)
    (hrest : restMs = if 0 < G ∧ MelodyContext.MIN_PLAY_MS < D
                      then min G (D - MelodyContext.MIN_PLAY_MS) else 0)
    (hplay : playMs = D - restMs) :
    playMs + restMs = D ∧
    (MelodyContext.MIN_PLAY_MS ≤ D → MelodyContext.MIN_PLAY_MS ≤ playMs) ∧
    (b.addNote hz denom).buffer =
      b.buffer ++ [⟨hz, playMs⟩] ++
        (if 0 < restMs then [⟨0, restMs⟩] else []) := by
  have hconv : b.denomToMs denom b.ctx.bpm =
      (max 1 (240000 / (b.ctx.bpm * denom)), b) := b.denomToMs_pos hdenom hbpm
  have hD1 : 1 ≤ D := by rw [hD, hconv]; exact le_max_left 1 _
  have hconv2 : b.denomToMs denom b.ctx.bpm = (D, b) := by
    rw [hconv, hD, hconv]
  have harith : playMs + restMs = D ∧
      (MelodyContext.MIN_PLAY_MS ≤ D → MelodyContext.MIN_PLAY_MS ≤ playMs) := by
    rw [hplay, hrest]
    split_ifs with hc
    · constructor <;> omega
    · constructor <;> omega
  refine ⟨harith.1, harith.2, ?_⟩
  have hlt1 : b.buffer.length < b.capacity := by omega
  unfold MelodyBuilder.addNote
  simp only [hconv2]
  rw [if_neg (by omega : ¬(D = 0)), if_neg (by omega : ¬(hz = 0))]
  by_cases hC : 0 < G ∧ MelodyContext.MIN_PLAY_MS < D
  · have hcode : 0 < hz ∧ 0 < b.ctx.gapMs ∧ MelodyContext.MIN_PLAY_MS < D :=
      ⟨hhz, hG ▸ hC.1, hC.2⟩
    rw [if_pos hcode]
    have hr0 : (if D - MelodyContext.MIN_PLAY_MS < b.ctx.gapMs then
        D - MelodyContext.MIN_PLAY_MS else b.ctx.gapMs) = restMs := by
      rw [hrest, if_pos hC, hG]
      split_ifs with h1 <;> omega
    simp only [hr0]
    have hrpos : 0 < restMs := by
      rw [hrest, if_pos hC]
      have := hC.1
      have := hC.2
      omega
    rw [b.pushStep_of_lt _ _ hlt1]
    rw [MelodyBuilder.pushStep_of_lt _ _ _
      (by simp only [List.length_append, List.length_cons, List.length_nil]; omega)]
    rw [if_pos hrpos, if_pos hrpos]
    have hp : D - restMs = playMs := hplay.symm
    rw [hp]
  · have hcode : ¬(0 < hz ∧ 0 < b.ctx.gapMs ∧ MelodyContext.MIN_PLAY_MS < D) := by
      rw [← hG]
      intro hcontra
      exact hC ⟨hcontra.2.1, hcontra.2.2⟩
    rw [if_neg hcode]
    have hr0 : restMs = 0 := by rw [hrest, if_neg hC]
    rw [b.pushStep_of_lt _ _ hlt1]
    rw [if_neg (by omega : ¬(0 < (D, 0).2)), if_neg (by omega : ¬(0 < restMs))]
    have hp : playMs = D := by omega
    rw [hp, List.append_nil]

/-- Witness for `addNote_gap_split_invariant`: the spec's own example, a
G5 quarter note at 76 bpm with a 15 ms gap. -/
theorem addNote_gap_split_invariant_witness :
    let b := ((mkBuilder 4).setTempo 76).gap 15
    (789 - 15) + 15 = 789 ∧
    (b.addNote 784 4).buffer = b.buffer ++ [⟨784, 789 - 15⟩] ++ [⟨0, 15⟩] := by
  have h := addNote_gap_split_invariant (((mkBuilder 4).setTempo 76).gap 15)
    784 4 789 15 15 (789 - 15)
    (by decide) (by decide) (by decide) (by decide)
    (by decide) (by decide) (by decide) (by decide)
  exact ⟨h.1, by
    have h3 := h.2.2
    rwa [if_pos (by decide : (0 : Nat) < 15)] at h3⟩

/-- Extension relation between builder states: capacity unchanged, buffer
only grown by appended steps, and the `length ≤ capacity` bound preserved. -/
def BExt (b bNew : MelodyBuilder) : Prop :=
  bNew.capacity = b.capacity ∧ (∃ t, bNew.buffer = b.buffer ++ t) ∧
  (b.buffer.length ≤ b.capacity → bNew.buffer.length ≤ bNew.capacity)

/-- Every builder state extends itself. -/
theorem BExt.refl (b : MelodyBuilder) : BExt b b :=
  ⟨rfl, ⟨[], by simp⟩, fun h => h⟩

/-- A state with the same buffer and capacity is an extension. -/
theorem BExt.of_fields {b bNew : MelodyBuilder} (h1 : bNew.buffer = b.buffer)
    (h2 : bNew.capacity = b.capacity) : BExt b bNew :=
  ⟨h2, ⟨[], by simp [h1]⟩, fun h => by rw [h1, h2]; exact h⟩

/-- Extension is transitive. -/
theorem BExt.trans {a b c : MelodyBuilder} (h1 : BExt a b) (h2 : BExt b c) :
    BExt a c := by
  obtain ⟨hc1, ⟨t1, ht1⟩, hb1⟩ := h1
  obtain ⟨hc2, ⟨t2, ht2⟩, hb2⟩ := h2
  exact ⟨hc2.trans hc1, ⟨t1 ++ t2, by rw [ht2, ht1, List.append_assoc]⟩,
    fun h => hb2 (hb1 h)⟩

/-- `pushStep_` is an extension step. -/
theorem MelodyBuilder.pushStep_bext (b : MelodyBuilder) (hz d : Nat) :
    BExt b (b.pushStep hz d).2 := by
  obtain ⟨h1, h2, h3⟩ := b.pushStep_extends hz d
  exact ⟨h1, h2, fun h => by rw [h1]; exact h3 h⟩

/-- `denomToMs_` is an extension step (it never touches the buffer). -/
theorem MelodyBuilder.denomToMs_bext (b : MelodyBuilder) (denom bpm : Nat) :
    BExt b (b.denomToMs denom bpm).2 :=
  BExt.of_fields (b.denomToMs_snd denom bpm).1 (b.denomToMs_snd denom bpm).2.1

/-- The tone-then-optional-rest push pair of `addNote` is an extension. -/
theorem MelodyBuilder.push_pair_bext (b1 : MelodyBuilder) (hz : Nat)
    (pr : Nat × Nat) :
    BExt b1 (if 0 < pr.2 then (((b1.pushStep hz pr.1).2).pushStep 0 pr.2).2
             else (b1.pushStep hz pr.1).2) := by
  split
  · exact (b1.pushStep_bext _ _).trans (MelodyBuilder.pushStep_bext _ _ _)
  · exact b1.pushStep_bext _ _

/-- `addNote` is an extension step. -/
theorem MelodyBuilder.addNote_bext (b : MelodyBuilder) (hz denom : Nat) :
    BExt b (b.addNote hz denom) := by
  rcases hconv : b.denomToMs denom b.ctx.bpm with ⟨d, b1⟩
  have hb1 : BExt b b1 := by
    have h2 := b.denomToMs_bext denom b.ctx.bpm
    rwa [hconv] at h2
  unfold MelodyBuilder.addNote
  simp only [hconv]
  split
  · exact hb1.trans (BExt.of_fields rfl rfl)
  · split
    · exact hb1.trans (b1.pushStep_bext _ _)
    · exact hb1.trans (b1.push_pair_bext hz _)

/-- `addRest` is an extension step. -/
theorem MelodyBuilder.addRest_bext (b : MelodyBuilder) (denom : Nat) :
    BExt b (b.addRest denom) := by
  rcases hconv : b.denomToMs denom b.ctx.bpm with ⟨d, b1⟩
  have hb1 : BExt b b1 := by
    have h2 := b.denomToMs_bext denom b.ctx.bpm
    rwa [hconv] at h2
  unfold MelodyBuilder.addRest
  simp only [hconv]
  exact hb1.trans (b1.pushStep_bext _ _)

/-- Folding extension steps yields an extension. -/
theorem foldl_bext {α : Type} (f : MelodyBuilder → α → MelodyBuilder)
    (hf : ∀ b x, BExt b (f b x)) :
    ∀ (l : List α) (b : MelodyBuilder), BExt b (l.foldl f b) := by
  intro l
  induction l with
  | nil => intro b; exact BExt.refl b
  | cons x xs ih => intro b; exact (hf b x).trans (ih (f b x))

/-- `appendScore` (array overload) is an extension step. -/
theorem MelodyBuilder.appendScore_bext (b : MelodyBuilder)
    (score : List ScoreNote) : BExt b (b.appendScore score) := by
  unfold MelodyBuilder.appendScore
  exact foldl_bext _ (fun acc note => by
    split
    · exact acc.addNote_bext _ _
    · exact BExt.refl acc) score b

/-- The `Reader` overload of `appendScore` is an extension step. -/
theorem MelodyBuilder.appendScoreReader_bext (b : MelodyBuilder)
    (reader : Nat → ScoreNote) (count : Nat) :
    BExt b (b.appendScoreReader reader count) := by
  unfold MelodyBuilder.appendScoreReader
  exact foldl_bext _ (fun acc i => by
    split
    · exact acc.addNote_bext _ _
    · exact BExt.refl acc) _ b

/-- Every public builder call keeps the capacity, either appends to the
buffer or clears it (`clearMelody`), and preserves the length bound. -/
theorem MelodyBuilder.applyOp_safe (b : MelodyBuilder) (op : BOp) :
    (b.applyOp op).capacity = b.capacity ∧
    ((∃ t, (b.applyOp op).buffer = b.buffer ++ t) ∨ (b.applyOp op).buffer = []) ∧
    (b.buffer.length ≤ b.capacity →
      (b.applyOp op).buffer.length ≤ (b.applyOp op).capacity) := by
  have hx : ∀ bNew, BExt b bNew →
      bNew.capacity = b.capacity ∧
      ((∃ t, bNew.buffer = b.buffer ++ t) ∨ bNew.buffer = []) ∧
      (b.buffer.length ≤ b.capacity → bNew.buffer.length ≤ bNew.capacity) :=
    fun bNew h => ⟨h.1, Or.inl h.2.1, h.2.2⟩
  cases op with
  | clearMelody toDefault =>
      exact ⟨rfl, Or.inr rfl, fun _ => by
        show ([] : List Step).length ≤ b.capacity
        simp⟩
  | setTempo bpm =>
      refine hx _ ?_
      show BExt b (b.setTempo bpm)
      unfold MelodyBuilder.setTempo
      split
      · exact BExt.of_fields rfl rfl
      · exact BExt.of_fields rfl rfl
  | gap gapMs =>
      refine hx _ ?_
      show BExt b (b.gap gapMs)
      unfold MelodyBuilder.gap
      split
      · exact BExt.of_fields rfl rfl
      · exact BExt.of_fields rfl rfl
  | addNote hz denom => exact hx _ (b.addNote_bext hz denom)
  | addRest denom => exact hx _ (b.addRest_bext denom)
  | addToneMs hz durationMs => exact hx _ (b.pushStep_bext hz durationMs)
  | addRestMs durationMs => exact hx _ (b.pushStep_bext 0 durationMs)
  | appendScore score => exact hx _ (b.appendScore_bext score)
  | appendScoreReader reader count =>
      exact hx _ (b.appendScoreReader_bext reader count)

/-- Running any call sequence preserves the capacity and the length bound. -/
theorem MelodyBuilder.applyOps_safe (cap : Nat) :
    ∀ (ops : List BOp) (b : MelodyBuilder), b.capacity = cap →
      b.buffer.length ≤ cap →
      (b.applyOps ops).capacity = cap ∧ (b.applyOps ops).buffer.length ≤ cap := by
  intro ops
  induction ops with
  | nil => intro b h1 h2; exact ⟨h1, h2⟩
  | cons op ops ih =>
      intro b h1 h2
      obtain ⟨hc, -, hb⟩ := b.applyOp_safe op
      have hb2 := hb (by omega)
      exact ih (b.applyOp op) (by omega) (by omega)

/-- C4: after any call sequence on a builder of capacity `C`, the compiled
length never exceeds `C`; a push attempted with the buffer full fails,
leaves the buffer (hence the length) unchanged and clears `ok_`; and every
further call either appends steps entirely within the capacity (no write at
an index `≥ C`) or clears the buffer (`clearMelody`). -/
theorem builder_length_never_exceeds_capacity (cap : Nat) (ops : List BOp)
    (b : MelodyBuilder) (hb : b = (mkBuilder cap).applyOps ops) :
    b.buffer.length ≤ cap ∧ b.capacity = cap ∧
    (∀ hz durationMs, cap ≤ b.buffer.length →
      (b.pushStep hz durationMs).1 = false ∧
      (b.pushStep hz durationMs).2.buffer = b.buffer ∧
      (b.pushStep hz durationMs).2.ok = false) ∧
    (∀ op, (∃ t, (b.applyOp op).buffer = b.buffer ++ t ∧
              b.buffer.length + t.length ≤ cap) ∨ (b.applyOp op).buffer = []) := by
  have hinit : (mkBuilder cap).capacity = cap := rfl
  have hinit2 : (mkBuilder cap).buffer.length ≤ cap := by
    show ([] : List Step).length ≤ cap
    simp
  obtain ⟨hcap, hlen⟩ :=
    MelodyBuilder.applyOps_safe cap ops (mkBuilder cap) hinit hinit2
  rw [← hb] at hcap hlen
  refine ⟨hlen, hcap, ?_, ?_⟩
  · intro hz durationMs hfull
    rw [b.pushStep_of_full hz durationMs (by omega)]
    exact ⟨rfl, rfl, rfl⟩
  · intro op
    obtain ⟨h1, h2, h3⟩ := b.applyOp_safe op
    rcases h2 with ⟨t, ht⟩ | hclear
    · left
      refine ⟨t, ht, ?_⟩
      have hb2 := h3 (by omega)
      rw [ht, List.length_append] at hb2
      rw [h1, hcap] at hb2
      exact hb2
    · right
      exact hclear

/-- Witness for `builder_length_never_exceeds_capacity`: capacity 1 with
two raw pushes — the second is discarded. -/
theorem builder_length_never_exceeds_capacity_witness :
    ((mkBuilder 1).applyOps [BOp.addToneMs 440 100,
      BOp.addRestMs 50]).buffer.length ≤ 1 ∧
    ((mkBuilder 1).applyOps [BOp.addToneMs 440 100,
      BOp.addRestMs 50]).capacity = 1 :=
  ⟨(builder_length_never_exceeds_capacity 1
      [BOp.addToneMs 440 100, BOp.addRestMs 50] _ rfl).1,
   (builder_length_never_exceeds_capacity 1
      [BOp.addToneMs 440 100, BOp.addRestMs 50] _ rfl).2.1⟩

/-- C6: in ADVANCE_STEP with the index at the melody's final step, the poll
that advances past the end either wraps the index to 0 and returns to
START_STEP (not IDLE) when looping, with no command issued, or, when not
looping, goes IDLE issuing the stop command to the signal generator exactly
once, and IDLE polls issue nothing further. -/
theorem advance_step_at_end_loops_or_stops (p : BuzzerPlayer) (m : Melody)
    (now : Nat) (hstate : p.state = fsm.State.ADVANCE_STEP)
    (hm : p.melody = some m) (hend : m.count ≤ p.melodyStepIdx + 1) :
    (p.looping = true →
      (p.update now).1.state = fsm.State.START_STEP ∧
      (p.update now).1.melodyStepIdx = 0 ∧
      (p.update now).2 = []) ∧
    (p.looping = false →
      (p.update now).1.state = fsm.State.IDLE ∧
      (p.update now).2.count Event.hwStop = 1 ∧
      (∀ now2, ((p.update now).1.update now2).2 = [])) := by
  constructor
  · intro hloop
    simp only [BuzzerPlayer.update, hstate, BuzzerPlayer.advanceToNextStep, hm,
      hloop, hend, if_true]
    refine ⟨?_, ?_, ?_⟩ <;> trivial
  · intro hloop
    simp only [BuzzerPlayer.update, hstate, BuzzerPlayer.advanceToNextStep, hm,
      hloop, hend, if_true, BuzzerPlayer.stop]
    refine ⟨?_, ?_, fun now2 => ?_⟩ <;> trivial

/-- Witness for `advance_step_at_end_loops_or_stops`: a 2-step melody with
the player in ADVANCE_STEP at the final index, not looping. -/
theorem advance_step_at_end_loops_or_stops_witness :
    (({ melody := some ⟨[⟨440, 100⟩, ⟨0, 50⟩], 2⟩, melodyStepIdx := 1,
        looping := false, stepDelay := ⟨100000, 0, false⟩,
        state := fsm.State.ADVANCE_STEP } : BuzzerPlayer).update 7).1.state =
      fsm.State.IDLE ∧
    (({ melody := some ⟨[⟨440, 100⟩, ⟨0, 50⟩], 2⟩, melodyStepIdx := 1,
        looping := false, stepDelay := ⟨100000, 0, false⟩,
        state := fsm.State.ADVANCE_STEP } : BuzzerPlayer).update
          7).2.count Event.hwStop = 1 := by
  have h := advance_step_at_end_loops_or_stops
    { melody := some ⟨[⟨440, 100⟩, ⟨0, 50⟩], 2⟩, melodyStepIdx := 1,
      looping := false, stepDelay := ⟨100000, 0, false⟩,
      state := fsm.State.ADVANCE_STEP } ⟨[⟨440, 100⟩, ⟨0, 50⟩], 2⟩ 7
    rfl rfl (by decide)
  exact ⟨(h.2 rfl).1, (h.2 rfl).2.1⟩

/-- C8 as stated fails on the code: after `play` of an empty melody, the
first poll does not advance-and-stop — it ends in PLAYING_STEP, not IDLE —
and the START_STEP handler does read the step at index 0 of the empty
melody (an out-of-bounds access of the borrowed buffer). -/
theorem play_empty_melody_first_poll_counterexample :
    (((mkPlayer 0).play ⟨[], 0⟩ false).1.update 5).1.state =
      fsm.State.PLAYING_STEP ∧
    Event.stepRead 0 ∈ (((mkPlayer 0).play ⟨[], 0⟩ false).1.update 5).2 := by
  decide

/-- C8 corrected: `play` with `count == 0` does transition to START_STEP,
but the first poll does not special-case the empty melody: it reads the
step at index 0 (past the melody's count; the out-of-bounds read is
modelled as the default step), commands the generator with what it read,
arms the timer and moves to PLAYING_STEP; only after that bogus step's
timer elapses does the ordinary advance path stop the player (IDLE, one
stop command). -/
theorem play_empty_melody_starts_bogus_step (m : Melody) (now0 now1 now2 : Nat)
    (hcount : m.count = 0) (hsteps : m.steps = []) :
    (((mkPlayer now0).play m false).1).state = fsm.State.START_STEP ∧
    ((((mkPlayer now0).play m false).1).update now1).2 =
      [Event.stepRead 0, Event.hwStop] ∧
    ((((mkPlayer now0).play m false).1).update now1).1.state =
      fsm.State.PLAYING_STEP ∧
    (∀ p2 : BuzzerPlayer, p2.state = fsm.State.ADVANCE_STEP →
      p2.melody = some m → p2.looping = false →
      (p2.update now2).1.state = fsm.State.IDLE ∧
      (p2.update now2).2 = [Event.hwStop]) := by
  have hp1 : ((mkPlayer now0).play m false).1 =
      { melody := some m, melodyStepIdx := 0, looping := false,
        stepDelay := (Delay.mk 0 0 false).init 0 now0,
        state := fsm.State.START_STEP } := by
    simp [BuzzerPlayer.play, mkPlayer, BuzzerPlayer.isPlaying]
  refine ⟨by rw [hp1], ?_, ?_, ?_⟩
  · rw [hp1]
    simp [BuzzerPlayer.update, BuzzerPlayer.getCurrentStep, hsteps]
  · rw [hp1]
    simp [BuzzerPlayer.update]
  · intro p2 hstate hm hloop
    simp only [BuzzerPlayer.update, hstate, BuzzerPlayer.advanceToNextStep, hm,
      hloop, hcount, Nat.zero_le, if_true, BuzzerPlayer.stop]
    exact ⟨rfl, rfl⟩

/-- Witness for `play_empty_melody_starts_bogus_step` on the concrete empty
melody. -/
theorem play_empty_melody_starts_bogus_step_witness :
    (((mkPlayer 0).play ⟨[], 0⟩ false).1).state = fsm.State.START_STEP ∧
    ((((mkPlayer 0).play ⟨[], 0⟩ false).1).update 3).2 =
      [Event.stepRead 0, Event.hwStop] :=
  ⟨(play_empty_melody_starts_bogus_step ⟨[], 0⟩ 0 3 9 rfl rfl).1,
   (play_empty_melody_starts_bogus_step ⟨[], 0⟩ 0 3 9 rfl rfl).2.1⟩

/-- The melody-presence invariant is preserved by every public player call:
outside IDLE the melody reference is set. -/
theorem BuzzerPlayer.applyAct_inv (p : BuzzerPlayer)
    (hp : p.state ≠ fsm.State.IDLE → p.melody.isSome = true) (a : PAct) :
    (p.applyAct a).state ≠ fsm.State.IDLE →
      (p.applyAct a).melody.isSome = true := by
  cases a with
  | play m loop =>
      intro _
      show (BuzzerPlayer.play p m loop).1.melody.isSome = true
      unfold BuzzerPlayer.play
      split <;> rfl
  | stop => intro h; exact absurd rfl h
  | update now =>
      show (p.update now).1.state ≠ fsm.State.IDLE →
        (p.update now).1.melody.isSome = true
      intro hne
      by_cases hidle : p.state = fsm.State.IDLE
      · have hid : (p.update now).1 = p := by
          simp [BuzzerPlayer.update, hidle]
        rw [hid] at hne ⊢
        exact hp hne
      · have hsome := hp hidle
        obtain ⟨m, hm⟩ := Option.isSome_iff_exists.mp hsome
        rcases hstate : p.state with _ | _ | _ | _
        · exact absurd hstate hidle
        · have hmel : (p.update now).1.melody = p.melody := by
            simp [BuzzerPlayer.update, hstate]
          rw [hmel]
          exact hsome
        · have hmel : (p.update now).1.melody = p.melody := by
            simp [BuzzerPlayer.update, hstate]
          rw [hmel]
          exact hsome
        · have hupd : p.update now = p.advanceToNextStep := by
            simp [BuzzerPlayer.update, hstate]
          rw [hupd] at hne ⊢
          unfold BuzzerPlayer.advanceToNextStep at hne ⊢
          simp only [hm] at hne ⊢
          split_ifs at hne ⊢ with h1 h2
          · rfl
          · exact absurd rfl hne
          · rfl

/-- The melody-presence invariant holds after any call sequence. -/
theorem BuzzerPlayer.applyActs_inv (acts : List PAct) :
    ∀ p : BuzzerPlayer,
      (p.state ≠ fsm.State.IDLE → p.melody.isSome = true) →
      ((p.applyActs acts).state ≠ fsm.State.IDLE →
        (p.applyActs acts).melody.isSome = true) := by
  induction acts with
  | nil => intro p hp; exact hp
  | cons a acts ih =>
      intro p hp
      exact ih (p.applyAct a) (p.applyAct_inv hp a)

/-- C10: in every state reachable from the constructed player through any
sequence of `play`, `stop` and `update` calls, `isPlaying()` implies the
active melody reference is set (non-null), so the START_STEP and
ADVANCE_STEP handlers never dereference a cleared melody. -/
theorem isPlaying_implies_melody_present (now0 : Nat) (acts : List PAct)
    (h : ((mkPlayer now0).applyActs acts).isPlaying = true) :
    ((mkPlayer now0).applyActs acts).melody.isSome = true := by
  have hne : ((mkPlayer now0).applyActs acts).state ≠ fsm.State.IDLE := by
    have h2 := of_decide_eq_true h
    exact h2
  refine BuzzerPlayer.applyActs_inv acts (mkPlayer now0) ?_ hne
  intro hcontra
  exact absurd rfl hcontra

/-- Witness for `isPlaying_implies_melody_present`: after one `play` the
player reports playing and indeed holds the melody. -/
theorem isPlaying_implies_melody_present_witness :
    ((mkPlayer 0).applyActs
      [PAct.play ⟨[⟨440, 100⟩], 1⟩ true]).melody.isSome = true :=
  isPlaying_implies_melody_present 0 [PAct.play ⟨[⟨440, 100⟩], 1⟩ true]
    (by decide)
